import Mathlib

/-!
Verification development for the bucket-reader programs
(`readbucket_mt.cpp`, `readbucket_sync.cpp`).

The multi-threaded reader is shallowly embedded below:

* `ObjectList` with `push_back`, `Pop`, `SetEnd`, `IsEnd` embeds the
  mutex-guarded work queue (readbucket_mt.cpp, lines 27-71); the mutex
  makes each method atomic, so each is embedded as a pure state
  transformer on the queue state.
* `partitionLoop` / `partition` embed the chunking loop of `main`
  (lines 194-207) that splits an object of a given size into byte
  ranges of at most `ReadChunkSize` bytes.
* `ConstructByteRange` embeds the range-string helper (lines 75-80).
* `RetrieveObjectRange` embeds the per-task GET wrapper (lines 83-111),
  with the S3 client's outcome supplied as an `Except` value.
* `workerStep` / `runWorker` embed the `Retriever` thread loop
  (lines 115-135) as a small-step state machine, with pushes by the
  producer interleaved as environment steps.
* `enumerate` / `producerRun` / `mainModel` embed the listing loop and
  argument handling of `main` (lines 138-230); each `ListObjectsV2`
  call is fed from a script of outcomes, and `ListOutcome.getResult`
  reflects that the AWS `Outcome::GetResult()` of a failed outcome is a
  default-constructed result (empty token, `IsTruncated = false`).

Machine integers: sizes and offsets are `unsigned long long` in the
source.  Object sizes come from `Object::GetSize()` (a signed 64-bit
value, hence < 2^63) and the chunk is 2^32, so `offset + ReadChunkSize`
stays far below 2^64 on every reachable input and plain `Nat`
arithmetic agrees with the machine arithmetic.
-/

/-- Constant `ThreadCount` (line 21): the number of reader threads. -/
def ThreadCount : Nat := 32

/-- Constant `ReadChunkSize` (line 23): `4ULL*1024ULL*1024ULL*1024ULL`, 4 GiB. -/
def ReadChunkSize : Nat := 4 * 1024 * 1024 * 1024

theorem readChunkSize_pos : 0 < ReadChunkSize := by decide

/-- `ObjectList::ReadKey` (line 33): a key and a byte-range string. -/
abbrev ReadKey : Type := String × String

/-- The state of the `ObjectList` queue (lines 67-70): the pending list
`keylist_` and the flag `end_marker_` (initialised `false`).  The mutex
is not part of the state: it only serialises the four methods. -/
structure ObjectList where
  keylist : List ReadKey
  end_marker : Bool := false
deriving DecidableEq

/-- A freshly constructed `ObjectList` (line 30): empty, flag unset. -/
def ObjectList.init : ObjectList := { keylist := [] }

/-- `ObjectList::push_back` (lines 35-39): `emplace_back` appends the
pair to the tail of `keylist_`. -/
def ObjectList.push_back (q : ObjectList) (key range : String) : ObjectList :=
  { q with keylist := q.keylist ++ [(key, range)] }

/-- `ObjectList::Pop` (lines 42-53): returns the empty optional on an
empty list, otherwise removes and returns `*keylist_.begin()`.  The
returned queue is the state after the call. -/
def ObjectList.Pop (q : ObjectList) : Option ReadKey × ObjectList :=
  match q.keylist with
  | [] => (none, q)
  | x :: xs => (some x, { q with keylist := xs })

/-- `ObjectList::SetEnd` (lines 55-59): sets `end_marker_ = true`. -/
def ObjectList.SetEnd (q : ObjectList) : ObjectList :=
  { q with end_marker := true }

/-- `ObjectList::IsEnd` (lines 61-65): reads `end_marker_`; the second
component records that the method leaves the state untouched. -/
def ObjectList.IsEnd (q : ObjectList) : Bool × ObjectList :=
  (q.end_marker, q)

/-- The chunking loop of `main` (lines 200-206), started at an
arbitrary `offset`: while `offset < size`, emit the range
`(offset, min size (offset + chunk))` and advance `offset` by `chunk`.
The loop terminates only for positive `chunk`, which the source
guarantees (`ReadChunkSize` is constant); the proof `hc` delimits the
domain. -/
def partitionLoop (size chunk : Nat) (hc : 0 < chunk) (offset : Nat) :
    List (Nat × Nat) :=
  if _h : offset < size then
    (offset, min size (offset + chunk)) :: partitionLoop size chunk hc (offset + chunk)
  else
    []
termination_by size - offset
decreasing_by simp_wf; omega

/-- The chunking loop as run by `main`: `offset` starts at `0`
(line 196). -/
def partition (size chunk : Nat) (hc : 0 < chunk) : List (Nat × Nat) :=
  partitionLoop size chunk hc 0

theorem partitionLoop_eq (size chunk : Nat) (hc : 0 < chunk) (offset : Nat) :
    partitionLoop size chunk hc offset =
      if offset < size then
        (offset, min size (offset + chunk)) :: partitionLoop size chunk hc (offset + chunk)
      else
        [] := by
  rw [partitionLoop]
  split <;> rfl

/-- `ConstructByteRange` (lines 75-80): `"bytes=" + to_string(lower) +
"-" + to_string(upper)`. -/
def ConstructByteRange (lower upper : Nat) : String :=
  "bytes=" ++ toString lower ++ "-" ++ toString upper

example : ConstructByteRange 0 5 = "bytes=0-5" := by rfl

theorem partitionLoop_stop (size chunk : Nat) (hc : 0 < chunk) (offset : Nat)
    (h : size ≤ offset) : partitionLoop size chunk hc offset = [] := by
  rw [partitionLoop_eq, if_neg (Nat.not_lt.mpr h)]

theorem partitionLoop_mem_aux (size chunk : Nat) (hc : 0 < chunk) :
    ∀ (n offset : Nat), size - offset ≤ n →
      ∀ p ∈ partitionLoop size chunk hc offset,
        offset ≤ p.1 ∧ p.1 < p.2 ∧ p.2 = min size (p.1 + chunk) := by
  intro n
  induction n with
  | zero =>
    intro offset ho p hp
    rw [partitionLoop_stop size chunk hc offset (by omega)] at hp
    simp at hp
  | succ n ih =>
    intro offset ho p hp
    rw [partitionLoop_eq] at hp
    by_cases h : offset < size
    · rw [if_pos h] at hp
      rcases List.mem_cons.mp hp with rfl | hp
      · refine ⟨Nat.le_refl _, ?_, rfl⟩
        show offset < min size (offset + chunk)
        omega
      · have h2 := ih (offset + chunk) (by omega) p hp
        exact ⟨by omega, h2.2.1, h2.2.2⟩
    · rw [if_neg h] at hp
      simp at hp

theorem partitionLoop_mem (size chunk : Nat) (hc : 0 < chunk) (offset : Nat) :
    ∀ p ∈ partitionLoop size chunk hc offset,
      offset ≤ p.1 ∧ p.1 < p.2 ∧ p.2 = min size (p.1 + chunk) :=
  partitionLoop_mem_aux size chunk hc (size - offset) offset (Nat.le_refl _)

theorem partitionLoop_head (size chunk : Nat) (hc : 0 < chunk) (offset : Nat)
    (h : offset < size) :
    ∃ tl, partitionLoop size chunk hc offset =
      (offset, min size (offset + chunk)) :: tl := by
  rw [partitionLoop_eq, if_pos h]
  exact ⟨_, rfl⟩

theorem partitionLoop_chain_aux (size chunk : Nat) (hc : 0 < chunk) :
    ∀ (n offset : Nat), size - offset ≤ n →
      List.Chain' (fun p q : Nat × Nat => p.2 = q.1)
        (partitionLoop size chunk hc offset) := by
  intro n
  induction n with
  | zero =>
    intro offset ho
    rw [partitionLoop_stop size chunk hc offset (by omega)]
    exact List.chain'_nil
  | succ n ih =>
    intro offset ho
    rw [partitionLoop_eq]
    by_cases h : offset < size
    · rw [if_pos h, List.chain'_cons']
      refine ⟨?_, ih (offset + chunk) (by omega)⟩
      intro b hb
      by_cases h2 : offset + chunk < size
      · obtain ⟨tl, htl⟩ := partitionLoop_head size chunk hc (offset + chunk) h2
        rw [htl] at hb
        simp only [List.head?_cons, Option.mem_def, Option.some.injEq] at hb
        subst hb
        show min size (offset + chunk) = offset + chunk
        omega
      · rw [partitionLoop_stop size chunk hc (offset + chunk) (by omega)] at hb
        simp at hb
    · rw [if_neg h]
      exact List.chain'_nil

theorem partitionLoop_pairwise_aux (size chunk : Nat) (hc : 0 < chunk) :
    ∀ (n offset : Nat), size - offset ≤ n →
      List.Pairwise (fun p q : Nat × Nat => p.2 ≤ q.1 ∧ p.1 < q.1)
        (partitionLoop size chunk hc offset) := by
  intro n
  induction n with
  | zero =>
    intro offset ho
    rw [partitionLoop_stop size chunk hc offset (by omega)]
    exact List.Pairwise.nil
  | succ n ih =>
    intro offset ho
    rw [partitionLoop_eq]
    by_cases h : offset < size
    · rw [if_pos h]
      refine List.Pairwise.cons ?_ (ih (offset + chunk) (by omega))
      intro q hq
      have h2 := partitionLoop_mem size chunk hc (offset + chunk) q hq
      refine ⟨?_, ?_⟩
      · show min size (offset + chunk) ≤ q.1
        omega
      · show offset < q.1
        omega
    · rw [if_neg h]
      exact List.Pairwise.nil

theorem partitionLoop_cover_aux (size chunk : Nat) (hc : 0 < chunk) :
    ∀ (n offset x : Nat), size - offset ≤ n → offset ≤ x → x < size →
      ∃ p ∈ partitionLoop size chunk hc offset, p.1 ≤ x ∧ x < p.2 := by
  intro n
  induction n with
  | zero =>
    intro offset x ho hx1 hx2
    omega
  | succ n ih =>
    intro offset x ho hx1 hx2
    have h : offset < size := by omega
    rw [partitionLoop_eq, if_pos h]
    by_cases h2 : x < min size (offset + chunk)
    · exact ⟨(offset, min size (offset + chunk)), List.mem_cons_self _ _, hx1, h2⟩
    · have h3 : offset + chunk ≤ x := by omega
      obtain ⟨p, hp, hpx⟩ := ih (offset + chunk) x (by omega) h3 hx2
      exact ⟨p, List.mem_cons_of_mem _ hp, hpx⟩

/-- C1.  Range partitioning: for every size `s ≥ 0` and chunk `c > 0`,
the ranges produced by the partitioning loop are contiguous
(each upper bound equals the next lower bound), non-empty with length
at most `c`, collectively cover exactly `[0, s)`, are non-overlapping
and strictly increasing, and `s = 0` yields the empty sequence. -/
theorem range_partition_correct (s c : Nat) (hc : 0 < c) :
    List.Chain' (fun p q : Nat × Nat => p.2 = q.1) (partition s c hc)
    ∧ (∀ p ∈ partition s c hc, p.1 < p.2 ∧ p.2 - p.1 ≤ c)
    ∧ (∀ x : Nat, x < s ↔ ∃ p ∈ partition s c hc, p.1 ≤ x ∧ x < p.2)
    ∧ List.Pairwise (fun p q : Nat × Nat => p.2 ≤ q.1 ∧ p.1 < q.1) (partition s c hc)
    ∧ (s = 0 → partition s c hc = []) := by
  refine ⟨partitionLoop_chain_aux s c hc s 0 (by omega), ?_, ?_,
    partitionLoop_pairwise_aux s c hc s 0 (by omega), ?_⟩
  · intro p hp
    have h := partitionLoop_mem s c hc 0 p hp
    omega
  · intro x
    constructor
    · intro hx
      exact partitionLoop_cover_aux s c hc s 0 x (by omega) (Nat.zero_le x) hx
    · rintro ⟨p, hp, hx1, hx2⟩
      have h := partitionLoop_mem s c hc 0 p hp
      omega
  · intro hs
    subst hs
    exact partitionLoop_stop 0 c hc 0 (Nat.le_refl 0)

/-- Witness for `range_partition_correct` at `s = 10`, `c = 4`. -/
theorem range_partition_correct_witness :
    0 < 4
    ∧ (List.Chain' (fun p q : Nat × Nat => p.2 = q.1) (partition 10 4 (by decide))
      ∧ (∀ p ∈ partition 10 4 (by decide), p.1 < p.2 ∧ p.2 - p.1 ≤ 4)
      ∧ (∀ x : Nat, x < 10 ↔ ∃ p ∈ partition 10 4 (by decide), p.1 ≤ x ∧ x < p.2)
      ∧ List.Pairwise (fun p q : Nat × Nat => p.2 ≤ q.1 ∧ p.1 < q.1)
          (partition 10 4 (by decide))
      ∧ (10 = 0 → partition 10 4 (by decide) = [])) :=
  ⟨by decide, range_partition_correct 10 4 (by decide)⟩

/-- The error payload of a failed `GetObject` outcome (exception name
and message, as printed at lines 106-108). -/
structure RetrievalError where
  exceptionName : String
  message : String
deriving DecidableEq

/-- `RetrieveObjectRange` (lines 83-111): issues one ranged GET (the
outcome is supplied by the external client) and returns the log lines
it prints: one `Read` line on success, one `GetObject error` line on
failure.  The payload bytes go to `/dev/null` in the source and are
not modelled. -/
def RetrieveObjectRange (outcome : Except RetrievalError Unit)
    (key range : String) : List String :=
  match outcome with
  | .ok _ => ["Read " ++ key ++ " " ++ range]
  | .error e => ["GetObject error: " ++ e.exceptionName ++ " " ++ e.message]

/-- Control location inside the `Retriever` loop (lines 115-135):
`draining` is the inner `while (Pop())` loop, `checkEnd` is the
`IsEnd()` test after a pop returned the empty optional, `done` is the
`return`. -/
inductive WPhase where
  | draining
  | checkEnd
  | done
deriving DecidableEq

/-- What one worker step did, as observed by the worker itself. -/
inductive WObs where
  | retrievedOk (t : ReadKey)
  | retrievedErr (t : ReadKey) (e : RetrievalError)
  | poppedNone
  | sawEndTrue
  | sleptNotEnd
  | idleDone
deriving DecidableEq

/-- One atomic step of the `Retriever` loop (lines 118-134), driven by
the retrieval oracle `ret` (the S3 client's response per task):

* in `draining`, call `Pop`; on a task, run `RetrieveObjectRange`
  (success or failure both continue the inner loop); on the empty
  optional, fall through to the `IsEnd` check;
* in `checkEnd`, return when `IsEnd()` is true, otherwise sleep 10 ms
  and re-enter the inner loop;
* `done` is absorbing. -/
def workerStep (ret : ReadKey → Except RetrievalError Unit)
    (p : WPhase) (q : ObjectList) : WPhase × ObjectList × WObs :=
  match p with
  | .draining =>
    match ObjectList.Pop q with
    | (some t, q') =>
      match ret t with
      | .ok _ => (.draining, q', .retrievedOk t)
      | .error e => (.draining, q', .retrievedErr t e)
    | (none, q') => (.checkEnd, q', .poppedNone)
  | .checkEnd =>
    if (ObjectList.IsEnd q).1 then (.done, q, .sawEndTrue)
    else (.draining, q, .sleptNotEnd)
  | .done => (.done, q, .idleDone)

/-- An action of the producer thread on the shared queue, interleaved
with worker steps. -/
inductive EnvOp where
  | push (key range : String)
  | setEnd
deriving DecidableEq

def applyEnvOp (q : ObjectList) : EnvOp → ObjectList
  | .push k r => q.push_back k r
  | .setEnd => q.SetEnd

/-- One entry of an interleaving schedule: either the producer acts, or
the worker takes one step. -/
inductive SchedStep where
  | env (op : EnvOp)
  | work
deriving DecidableEq

/-- Run the worker under a schedule, accumulating its observations
newest-first. -/
def runWorker (ret : ReadKey → Except RetrievalError Unit) :
    List SchedStep → WPhase → ObjectList → List WObs →
      WPhase × ObjectList × List WObs
  | [], p, q, obs => (p, q, obs)
  | .env op :: s, p, q, obs => runWorker ret s p (applyEnvOp q op) obs
  | .work :: s, p, q, obs =>
    let r := workerStep ret p q
    runWorker ret s r.1 r.2.1 (r.2.2 :: obs)

/-- Iterate `workerStep` alone (no producer interference), dropping the
observations. -/
def workerIter (ret : ReadKey → Except RetrievalError Unit) :
    Nat → WPhase × ObjectList → WPhase × ObjectList
  | 0, s => s
  | n + 1, (p, q) =>
    let r := workerStep ret p q
    workerIter ret n (r.1, r.2.1)

/-- Perform `n` `Pop` calls in a row, collecting the successfully
returned tasks in order. -/
def popN (q : ObjectList) : Nat → List ReadKey × ObjectList
  | 0 => ([], q)
  | n + 1 =>
    match ObjectList.Pop q with
    | (some t, q') =>
      let r := popN q' n
      (t :: r.1, r.2)
    | (none, q') => popN q' n

/-- Any single queue operation, for stating invariants over arbitrary
operation sequences. -/
inductive QOp where
  | push (key range : String)
  | pop
  | setEnd
  | isEnd
deriving DecidableEq

def applyQOp (q : ObjectList) : QOp → ObjectList
  | .push k r => q.push_back k r
  | .pop => (ObjectList.Pop q).2
  | .setEnd => q.SetEnd
  | .isEnd => (ObjectList.IsEnd q).2

def applyQOps (q : ObjectList) (ops : List QOp) : ObjectList :=
  ops.foldl applyQOp q

theorem popN_take_drop (n : Nat) : ∀ q : ObjectList,
    (popN q n).1 = q.keylist.take n
    ∧ (popN q n).2.keylist = q.keylist.drop n
    ∧ (popN q n).2.end_marker = q.end_marker := by
  induction n with
  | zero =>
    intro q
    exact ⟨rfl, rfl, rfl⟩
  | succ n ih =>
    intro q
    rcases q with ⟨kl, em⟩
    cases kl with
    | nil =>
      simpa [popN, ObjectList.Pop] using ih { keylist := [], end_marker := em }
    | cons x xs =>
      simpa [popN, ObjectList.Pop] using ih { keylist := xs, end_marker := em }

/-- C3.  Pop semantics and at-most-once delivery: `Pop` on an empty
queue reports the empty optional without an error and returns the
queue unchanged; on a non-empty queue it removes and returns the head
(the first-pushed pending task, since `push_back` appends at the
tail); `n` successive pops return exactly the first `n` pending tasks
in order and leave the rest, so a queue holding `K` tasks with no
further pushes yields exactly `K` successful pops, and distinct tasks
are never returned twice. -/
theorem pop_semantics :
    (∀ q : ObjectList, q.keylist = [] → ObjectList.Pop q = (none, q))
    ∧ (∀ (q : ObjectList) (x : ReadKey) (xs : List ReadKey), q.keylist = x :: xs →
        ObjectList.Pop q = (some x, { keylist := xs, end_marker := q.end_marker }))
    ∧ (∀ (q : ObjectList) (n : Nat),
        (popN q n).1 = q.keylist.take n ∧ (popN q n).2.keylist = q.keylist.drop n)
    ∧ (∀ (q : ObjectList) (n : Nat), q.keylist.length ≤ n → (popN q n).1 = q.keylist)
    ∧ (∀ (q : ObjectList) (n : Nat), q.keylist.Nodup → (popN q n).1.Nodup) := by
  refine ⟨?_, ?_, ?_, ?_, ?_⟩
  · intro q h
    rcases q with ⟨kl, em⟩
    cases kl with
    | nil => rfl
    | cons x xs => exact absurd h (List.cons_ne_nil x xs)
  · intro q x xs h
    rcases q with ⟨kl, em⟩
    cases kl with
    | nil => exact absurd h.symm (List.cons_ne_nil x xs)
    | cons y ys =>
      have h2 : y :: ys = x :: xs := h
      injection h2 with h3 h4
      subst h3
      subst h4
      rfl
  · intro q n
    exact ⟨(popN_take_drop n q).1, (popN_take_drop n q).2.1⟩
  · intro q n h
    rw [(popN_take_drop n q).1]
    exact List.take_of_length_le h
  · intro q n h
    rw [(popN_take_drop n q).1]
    exact h.sublist (List.take_sublist n q.keylist)

/-- Witness for `pop_semantics` on a concrete two-task queue. -/
theorem pop_semantics_witness :
    (({ keylist := [("a", "r1"), ("b", "r2")] } : ObjectList).keylist
        = ("a", "r1") :: [("b", "r2")]
      ∧ ObjectList.Pop { keylist := [("a", "r1"), ("b", "r2")] }
        = (some ("a", "r1"),
            { keylist := [("b", "r2")],
              end_marker :=
                ({ keylist := [("a", "r1"), ("b", "r2")] } : ObjectList).end_marker }))
    ∧ ({ keylist := [("a", "r1"), ("b", "r2")] } : ObjectList).keylist.length ≤ 3
    ∧ (popN { keylist := [("a", "r1"), ("b", "r2")] } 3).1
        = ({ keylist := [("a", "r1"), ("b", "r2")] } : ObjectList).keylist :=
  ⟨⟨rfl, pop_semantics.2.1 { keylist := [("a", "r1"), ("b", "r2")] }
      ("a", "r1") [("b", "r2")] rfl⟩,
    by decide,
    pop_semantics.2.2.2.1 { keylist := [("a", "r1"), ("b", "r2")] } 3 (by decide)⟩

theorem applyQOp_end_marker (q : ObjectList) (op : QOp)
    (h : q.end_marker = true) : (applyQOp q op).end_marker = true := by
  rcases q with ⟨kl, em⟩
  cases op with
  | push k r => simpa [applyQOp, ObjectList.push_back] using h
  | pop => cases kl <;> simpa [applyQOp, ObjectList.Pop] using h
  | setEnd => simp [applyQOp, ObjectList.SetEnd]
  | isEnd => simpa [applyQOp, ObjectList.IsEnd] using h

theorem applyQOps_end_marker (ops : List QOp) : ∀ q : ObjectList,
    q.end_marker = true → (applyQOps q ops).end_marker = true := by
  induction ops with
  | nil => intro q h; exact h
  | cons op ops ih =>
    intro q h
    exact ih (applyQOp q op) (applyQOp_end_marker q op h)

/-- C4.  The terminal flag is monotonic: once `IsEnd` returns `true`,
it returns `true` after any further sequence of pushes, pops, `SetEnd`
or `IsEnd` calls; and `SetEnd` is idempotent. -/
theorem terminal_monotonic_idempotent :
    (∀ (q : ObjectList) (ops : List QOp), (ObjectList.IsEnd q).1 = true →
        (ObjectList.IsEnd (applyQOps q ops)).1 = true)
    ∧ (∀ q : ObjectList, ObjectList.SetEnd (ObjectList.SetEnd q) = ObjectList.SetEnd q) :=
  ⟨fun q ops h => applyQOps_end_marker ops q h, fun _ => rfl⟩

/-- Witness for `terminal_monotonic_idempotent`: the flag survives a
push, a pop and an `IsEnd` call. -/
theorem terminal_monotonic_idempotent_witness :
    (ObjectList.IsEnd { keylist := [], end_marker := true }).1 = true
    ∧ (ObjectList.IsEnd (applyQOps { keylist := [], end_marker := true }
        [QOp.push "k" "bytes=0-5", QOp.pop, QOp.isEnd])).1 = true :=
  ⟨rfl, terminal_monotonic_idempotent.1 { keylist := [], end_marker := true }
    [QOp.push "k" "bytes=0-5", QOp.pop, QOp.isEnd] rfl⟩

/-- C10.  Frame effects: `push_back` only appends to the task list and
leaves the flag unchanged; `SetEnd` leaves the task list unchanged;
`IsEnd` mutates nothing; `Pop` on an empty queue mutates nothing and
reports emptiness. -/
theorem queue_frame_effects :
    (∀ (q : ObjectList) (k r : String),
        (ObjectList.push_back q k r).end_marker = q.end_marker
        ∧ (ObjectList.push_back q k r).keylist = q.keylist ++ [(k, r)])
    ∧ (∀ q : ObjectList, (ObjectList.SetEnd q).keylist = q.keylist)
    ∧ (∀ q : ObjectList, (ObjectList.IsEnd q).2 = q)
    ∧ (∀ q : ObjectList, q.keylist = [] → ObjectList.Pop q = (none, q)) := by
  refine ⟨fun q k r => ⟨rfl, rfl⟩, fun q => rfl, fun q => rfl, ?_⟩
  intro q h
  rcases q with ⟨kl, em⟩
  cases kl with
  | nil => rfl
  | cons x xs => exact absurd h (List.cons_ne_nil x xs)

/-- Witness for `queue_frame_effects`: `Pop` on a concrete empty queue
with the flag set leaves the state untouched. -/
theorem queue_frame_effects_witness :
    ({ keylist := [], end_marker := true } : ObjectList).keylist = []
    ∧ ObjectList.Pop { keylist := [], end_marker := true }
        = (none, { keylist := [], end_marker := true }) :=
  ⟨rfl, queue_frame_effects.2.2.2 { keylist := [], end_marker := true } rfl⟩

/-- The worker observed a `Pop` that returned the empty optional and,
immediately after, `IsEnd()` returning true (observations are stored
newest-first, so the pair appears as `sawEndTrue :: poppedNone`). -/
def SeenEmptyThenEnd (obs : List WObs) : Prop :=
  ∃ pre tl, obs = pre ++ WObs.sawEndTrue :: WObs.poppedNone :: tl

theorem runWorker_inv (ret : ReadKey → Except RetrievalError Unit) :
    ∀ (sched : List SchedStep) (p : WPhase) (q : ObjectList) (obs : List WObs),
      (p = WPhase.checkEnd → ∃ tl, obs = WObs.poppedNone :: tl) →
      (p = WPhase.done → SeenEmptyThenEnd obs) →
      (runWorker ret sched p q obs).1 = WPhase.done →
      SeenEmptyThenEnd (runWorker ret sched p q obs).2.2 := by
  intro sched
  induction sched with
  | nil =>
    intro p q obs h1 h2 hd
    exact h2 hd
  | cons st s ih =>
    intro p q obs h1 h2
    cases st with
    | env op => exact ih p (applyEnvOp q op) obs h1 h2
    | work =>
      cases p with
      | draining =>
        rcases q with ⟨kl, em⟩
        cases kl with
        | nil =>
          exact ih WPhase.checkEnd { keylist := [], end_marker := em }
            (WObs.poppedNone :: obs) (fun _ => ⟨obs, rfl⟩)
            (fun hh => WPhase.noConfusion hh)
        | cons x xs =>
          cases hr : ret x with
          | ok u =>
            have hred : runWorker ret (SchedStep.work :: s) WPhase.draining
                { keylist := x :: xs, end_marker := em } obs
                = runWorker ret s WPhase.draining { keylist := xs, end_marker := em }
                    (WObs.retrievedOk x :: obs) := by
              simp [runWorker, workerStep, ObjectList.Pop, hr]
            rw [hred]
            exact ih WPhase.draining { keylist := xs, end_marker := em }
              (WObs.retrievedOk x :: obs) (fun hh => WPhase.noConfusion hh)
              (fun hh => WPhase.noConfusion hh)
          | error e =>
            have hred : runWorker ret (SchedStep.work :: s) WPhase.draining
                { keylist := x :: xs, end_marker := em } obs
                = runWorker ret s WPhase.draining { keylist := xs, end_marker := em }
                    (WObs.retrievedErr x e :: obs) := by
              simp [runWorker, workerStep, ObjectList.Pop, hr]
            rw [hred]
            exact ih WPhase.draining { keylist := xs, end_marker := em }
              (WObs.retrievedErr x e :: obs) (fun hh => WPhase.noConfusion hh)
              (fun hh => WPhase.noConfusion hh)
      | checkEnd =>
        obtain ⟨tl, rfl⟩ := h1 rfl
        rcases q with ⟨kl, em⟩
        cases em with
        | true =>
          exact ih WPhase.done { keylist := kl, end_marker := true }
            (WObs.sawEndTrue :: WObs.poppedNone :: tl)
            (fun hh => WPhase.noConfusion hh) (fun _ => ⟨[], tl, rfl⟩)
        | false =>
          exact ih WPhase.draining { keylist := kl, end_marker := false }
            (WObs.sleptNotEnd :: WObs.poppedNone :: tl)
            (fun hh => WPhase.noConfusion hh) (fun hh => WPhase.noConfusion hh)
      | done =>
        obtain ⟨pre, tl, hobs⟩ := h2 rfl
        refine ih WPhase.done q (WObs.idleDone :: obs)
          (fun hh => WPhase.noConfusion hh) (fun _ => ⟨WObs.idleDone :: pre, tl, ?_⟩) 
        rw [hobs]
        rfl

/-- C5.  Worker exit condition: under any interleaving of producer
actions and worker steps, a worker that has reached `done` observed a
`Pop` returning the empty optional immediately followed by `IsEnd()`
returning true; a successful pop executes the retrieval (with either
outcome) and stays in the draining loop with exactly the popped queue;
and an empty queue with the flag unset makes the worker sleep and
resume draining rather than exit. -/
theorem worker_exit_condition (ret : ReadKey → Except RetrievalError Unit) :
    (∀ (sched : List SchedStep) (q : ObjectList),
        (runWorker ret sched WPhase.draining q []).1 = WPhase.done →
        SeenEmptyThenEnd (runWorker ret sched WPhase.draining q []).2.2)
    ∧ (∀ (q q' : ObjectList) (t : ReadKey), ObjectList.Pop q = (some t, q') →
        (workerStep ret WPhase.draining q).1 = WPhase.draining
        ∧ (workerStep ret WPhase.draining q).2.1 = q'
        ∧ ((workerStep ret WPhase.draining q).2.2 = WObs.retrievedOk t
            ∨ ∃ e, (workerStep ret WPhase.draining q).2.2 = WObs.retrievedErr t e))
    ∧ (∀ q : ObjectList, (ObjectList.IsEnd q).1 = false →
        workerStep ret WPhase.checkEnd q = (WPhase.draining, q, WObs.sleptNotEnd)) := by
  refine ⟨?_, ?_, ?_⟩
  · intro sched q hd
    exact runWorker_inv ret sched WPhase.draining q []
      (fun hh => WPhase.noConfusion hh) (fun hh => WPhase.noConfusion hh) hd
  · intro q q' t h
    rcases q with ⟨kl, em⟩
    cases kl with
    | nil => simp [ObjectList.Pop] at h
    | cons x xs =>
      have h2 : ((some x : Option ReadKey),
          ({ keylist := xs, end_marker := em } : ObjectList)) = (some t, q') := h
      injection h2 with ha hb
      injection ha with ha
      subst ha
      subst hb
      cases hr : ret x with
      | ok u => exact ⟨by simp [workerStep, ObjectList.Pop, hr],
          by simp [workerStep, ObjectList.Pop, hr],
          Or.inl (by simp [workerStep, ObjectList.Pop, hr])⟩
      | error e => exact ⟨by simp [workerStep, ObjectList.Pop, hr],
          by simp [workerStep, ObjectList.Pop, hr],
          Or.inr ⟨e, by simp [workerStep, ObjectList.Pop, hr]⟩⟩
  · intro q h
    rcases q with ⟨kl, em⟩
    have hem : em = false := h
    subst hem
    rfl

/-- Witness for `worker_exit_condition`: a two-step schedule on a
terminal empty queue reaches `done` with the required observations; a
concrete pop; a concrete non-terminal idle check. -/
theorem worker_exit_condition_witness :
    ((runWorker (fun _ => Except.ok ()) [SchedStep.work, SchedStep.work]
        WPhase.draining { keylist := [], end_marker := true } []).1 = WPhase.done
      ∧ SeenEmptyThenEnd (runWorker (fun _ => Except.ok ())
          [SchedStep.work, SchedStep.work] WPhase.draining
          { keylist := [], end_marker := true } []).2.2)
    ∧ (ObjectList.Pop { keylist := [("k", "bytes=0-5")] }
        = (some ("k", "bytes=0-5"), { keylist := [] })
      ∧ (workerStep (fun _ => Except.ok ()) WPhase.draining
          { keylist := [("k", "bytes=0-5")] }).1 = WPhase.draining)
    ∧ ((ObjectList.IsEnd { keylist := [] }).1 = false
      ∧ workerStep (fun _ => Except.ok ()) WPhase.checkEnd { keylist := [] }
          = (WPhase.draining, { keylist := [] }, WObs.sleptNotEnd)) :=
  ⟨⟨rfl, (worker_exit_condition (fun _ => Except.ok ())).1
      [SchedStep.work, SchedStep.work] { keylist := [], end_marker := true } rfl⟩,
    ⟨rfl, ((worker_exit_condition (fun _ => Except.ok ())).2.1
      { keylist := [("k", "bytes=0-5")] } { keylist := [] } ("k", "bytes=0-5") rfl).1⟩,
    rfl, (worker_exit_condition (fun _ => Except.ok ())).2.2 { keylist := [] } rfl⟩

/-- C6.  Retrieval-failure handling: when the retrieval of a popped
task fails, the step produces exactly one `GetObject error` log line
naming the error, the worker stays in the draining loop (it is not
terminated), and the resulting queue is exactly the popped queue — the
failed task is removed from the head and never pushed back. -/
theorem retrieval_failure_handling (ret : ReadKey → Except RetrievalError Unit)
    (q q' : ObjectList) (t : ReadKey) (e : RetrievalError)
    (hpop : ObjectList.Pop q = (some t, q')) (herr : ret t = Except.error e) :
    workerStep ret WPhase.draining q = (WPhase.draining, q', WObs.retrievedErr t e)
    ∧ RetrieveObjectRange (Except.error e) t.1 t.2
        = ["GetObject error: " ++ e.exceptionName ++ " " ++ e.message]
    ∧ q'.keylist = q.keylist.tail
    ∧ (workerStep ret WPhase.draining q).1 ≠ WPhase.done := by
  rcases q with ⟨kl, em⟩
  cases kl with
  | nil => simp [ObjectList.Pop] at hpop
  | cons x xs =>
    have h2 : ((some x : Option ReadKey),
        ({ keylist := xs, end_marker := em } : ObjectList)) = (some t, q') := hpop
    injection h2 with ha hb
    injection ha with ha
    subst ha
    subst hb
    have hstep : workerStep ret WPhase.draining { keylist := x :: xs, end_marker := em }
        = (WPhase.draining, { keylist := xs, end_marker := em },
            WObs.retrievedErr x e) := by
      simp [workerStep, ObjectList.Pop, herr]
    refine ⟨hstep, rfl, rfl, ?_⟩
    rw [hstep]
    exact fun hh => WPhase.noConfusion hh

/-- Witness for `retrieval_failure_handling` on a concrete one-task
queue whose retrieval fails with `AccessDenied`. -/
theorem retrieval_failure_handling_witness :
    (ObjectList.Pop { keylist := [("k", "bytes=0-5")] }
        = (some ("k", "bytes=0-5"), { keylist := [] })
      ∧ (fun _ : ReadKey =>
            (Except.error { exceptionName := "AccessDenied", message := "denied" }
              : Except RetrievalError Unit)) ("k", "bytes=0-5")
          = Except.error { exceptionName := "AccessDenied", message := "denied" })
    ∧ workerStep
        (fun _ => Except.error { exceptionName := "AccessDenied", message := "denied" })
        WPhase.draining { keylist := [("k", "bytes=0-5")] }
        = (WPhase.draining, { keylist := [] },
            WObs.retrievedErr ("k", "bytes=0-5")
              { exceptionName := "AccessDenied", message := "denied" }) :=
  ⟨⟨rfl, rfl⟩,
    (retrieval_failure_handling
      (fun _ => Except.error { exceptionName := "AccessDenied", message := "denied" })
      { keylist := [("k", "bytes=0-5")] } { keylist := [] } ("k", "bytes=0-5")
      { exceptionName := "AccessDenied", message := "denied" } rfl rfl).1⟩

theorem workerIter_done_of_terminal (ret : ReadKey → Except RetrievalError Unit) :
    ∀ xs : List ReadKey,
      ∃ k, k ≤ xs.length + 2 ∧
        (workerIter ret k (WPhase.draining, { keylist := xs, end_marker := true })).1
          = WPhase.done := by
  intro xs
  induction xs with
  | nil => exact ⟨2, by omega, rfl⟩
  | cons x xs ih =>
    obtain ⟨k, hk, hdone⟩ := ih
    refine ⟨k + 1, by simp; omega, ?_⟩
    cases hr : ret x with
    | ok u =>
      have hred : workerIter ret (k + 1)
          (WPhase.draining, { keylist := x :: xs, end_marker := true })
          = workerIter ret k (WPhase.draining, { keylist := xs, end_marker := true }) := by
        simp [workerIter, workerStep, ObjectList.Pop, hr]
      rw [hred]
      exact hdone
    | error e =>
      have hred : workerIter ret (k + 1)
          (WPhase.draining, { keylist := x :: xs, end_marker := true })
          = workerIter ret k (WPhase.draining, { keylist := xs, end_marker := true }) := by
        simp [workerIter, workerStep, ObjectList.Pop, hr]
      rw [hred]
      exact hdone

theorem worker_done_any_phase (ret : ReadKey → Except RetrievalError Unit)
    (q : ObjectList) (h : q.end_marker = true) (p : WPhase) :
    ∃ k, k ≤ q.keylist.length + 2 ∧ (workerIter ret k (p, q)).1 = WPhase.done := by
  rcases q with ⟨kl, em⟩
  have hem : em = true := h
  subst hem
  cases p with
  | draining => exact workerIter_done_of_terminal ret kl
  | checkEnd => exact ⟨1, by omega, rfl⟩
  | done => exact ⟨0, by omega, rfl⟩

/-- One `ListObjectsV2Result` as consumed by the loop (lines 188-219):
the listed objects (key and size), the next continuation token, and
the truncation flag.  Field defaults are the values of a
default-constructed result. -/
structure ListPage where
  contents : List (String × Nat)
  nextContinuationToken : String := ""
  isTruncated : Bool := false
deriving DecidableEq

/-- A default-constructed `ListObjectsV2Result`: no contents, empty
token, `IsTruncated = false`. -/
def defaultListPage : ListPage := { contents := [] }

/-- The error payload of a failed listing outcome (printed at
lines 211-213). -/
structure ListError where
  exceptionName : String
  message : String
deriving DecidableEq

/-- The outcome of one `ListObjectsV2` call (line 186). -/
inductive ListOutcome where
  | success (result : ListPage)
  | failure (err : ListError)
deriving DecidableEq

/-- `Outcome::GetResult()` as used at lines 217 and 219: the stored
result on success; on failure the AWS `Outcome` holds only an error
and `GetResult()` yields a default-constructed result. -/
def ListOutcome.getResult : ListOutcome → ListPage
  | .success r => r
  | .failure _ => defaultListPage

/-- The per-object chunking (lines 194-206): one pushed `ReadKey` per
range, with the range string built by `ConstructByteRange(offset,
upper_bound)` where `upper_bound = min(objsize, offset + ReadChunkSize)`. -/
def tasksOfObject (key : String) (objsize : Nat) : List ReadKey :=
  (partition objsize ReadChunkSize readChunkSize_pos).map
    (fun p => (key, ConstructByteRange p.1 p.2))

/-- All tasks pushed for one successful page (the `for` loop at
lines 194-207). -/
def tasksOfPage (page : ListPage) : List ReadKey :=
  page.contents.flatMap (fun o => tasksOfObject o.1 o.2)

/-- Effect of one loop iteration on the queue and the log
(lines 188-214): a successful page pushes its tasks; a failed page
pushes nothing and prints one `ListObjects error` line. -/
def pageEffect : ListOutcome → List ReadKey × List String
  | .success r => (tasksOfPage r, [])
  | .failure e => ([], ["ListObjects error: " ++ e.exceptionName ++ " " ++ e.message])

/-- The listing do-while loop (lines 184-219), driven by a script of
outcomes, one per `ListObjectsV2` call.  Each iteration consumes the
next outcome, applies `pageEffect`, stores the continuation token of
`GetResult()` (abstracted into the script) and repeats while
`GetResult().GetIsTruncated()` holds; a failed outcome's default
result reports `false`, so the loop exits after a failure.  Returns
the pushed tasks, the error log lines, and the number of pages
consumed. -/
def enumerate : List ListOutcome → List ReadKey × List String × Nat
  | [] => ([], [], 0)
  | o :: rest =>
    let eff := pageEffect o
    if (ListOutcome.getResult o).isTruncated then
      let r := enumerate rest
      (eff.1 ++ r.1, eff.2 ++ r.2.1, r.2.2 + 1)
    else
      (eff.1, eff.2, 1)

def pushAll (q : ObjectList) (ts : List ReadKey) : ObjectList :=
  ts.foldl (fun acc t => acc.push_back t.1 t.2) q

/-- The producer flow of `main` (lines 156-221): a fresh queue, the
listing loop pushing every task, then `SetEnd()`. -/
def producerRun (script : List ListOutcome) : ObjectList :=
  ObjectList.SetEnd (pushAll ObjectList.init (enumerate script).1)

/-- `main` (lines 138-230): with `argc < 3` print the usage message and
`exit(1)`; otherwise run the producer flow, join all workers, and fall
off the end of `main` (exit status 0).  `argv` includes the program
name. -/
def mainModel (argv : List String) (script : List ListOutcome) :
    Nat × Option ObjectList :=
  if argv.length < 3 then (1, none)
  else (0, some (producerRun script))

theorem partition_eval_zero : partition 0 ReadChunkSize readChunkSize_pos = [] :=
  partitionLoop_stop 0 ReadChunkSize readChunkSize_pos 0 (Nat.le_refl 0)

theorem partition_eval_ten :
    partition 10 ReadChunkSize readChunkSize_pos = [(0, 10)] := by
  simp +decide [partition, partitionLoop_eq, ReadChunkSize, Nat.min_def]

theorem partition_eval_large :
    partition 5000000000 ReadChunkSize readChunkSize_pos
      = [(0, 4294967296), (4294967296, 5000000000)] := by
  simp +decide [partition, partitionLoop_eq, ReadChunkSize, Nat.min_def]

/-- C7.  Small-bucket scenario with the source's chunk size
`ReadChunkSize = 4294967296`: size 0 yields 0 tasks, size 10 yields
the single whole-object range `[0, 10)`, size 5000000000 yields the
two ranges `[0, 4294967296)` and `[4294967296, 5000000000)`; 3 tasks
in total. -/
theorem small_bucket_tasks :
    ReadChunkSize = 4294967296
    ∧ partition 0 ReadChunkSize readChunkSize_pos = []
    ∧ partition 10 ReadChunkSize readChunkSize_pos = [(0, 10)]
    ∧ partition 5000000000 ReadChunkSize readChunkSize_pos
        = [(0, 4294967296), (4294967296, 5000000000)]
    ∧ (partition 0 ReadChunkSize readChunkSize_pos).length
      + (partition 10 ReadChunkSize readChunkSize_pos).length
      + (partition 5000000000 ReadChunkSize readChunkSize_pos).length = 3 := by
  refine ⟨by decide, partition_eval_zero, partition_eval_ten, partition_eval_large, ?_⟩
  rw [partition_eval_zero, partition_eval_ten, partition_eval_large]
  rfl

/-- A three-page listing script: page 1 succeeds (objects `a`, `b`) and
is truncated, page 2 fails, page 3 (object `c`) would be available. -/
def cexPage1 : ListPage :=
  { contents := [("a", 10), ("b", 10)]
    nextContinuationToken := "tok2"
    isTruncated := true }

def cexPage3 : ListPage :=
  { contents := [("c", 10)] }

def cexScript : List ListOutcome :=
  [ListOutcome.success cexPage1,
    ListOutcome.failure { exceptionName := "InternalError", message := "boom" },
    ListOutcome.success cexPage3]

theorem tasksOfObject_ten (key : String) :
    tasksOfObject key 10 = [(key, "bytes=0-10")] := by
  unfold tasksOfObject
  rw [partition_eval_ten]
  rfl

theorem tasksOfPage_cex :
    tasksOfPage cexPage1 = [("a", "bytes=0-10"), ("b", "bytes=0-10")] := by
  simp [tasksOfPage, cexPage1, tasksOfObject_ten]

/-- Counterexample to C2 as stated: on `cexScript` the enumeration
does NOT continue with the next page after the failure — the failed
outcome's default result reports `IsTruncated = false`, so the
do-while loop exits having consumed only 2 of the 3 pages, and no task
for object `c` is ever pushed (the pushed tasks are exactly those of
page 1). -/
theorem listing_failure_counterexample :
    cexScript.length = 3
    ∧ enumerate cexScript
        = ([("a", "bytes=0-10"), ("b", "bytes=0-10")],
            ["ListObjects error: InternalError boom"], 2) := by
  refine ⟨rfl, ?_⟩
  have h1 : enumerate cexScript
      = (tasksOfPage cexPage1 ++ [],
          [] ++ ["ListObjects error: InternalError boom"], 1 + 1) := rfl
  rw [h1, tasksOfPage_cex]
  rfl

/-- C2 amended.  When a listing page fetch fails, the enumerator logs
one `ListObjects error` line, contributes zero objects for that page,
and the enumeration loop terminates (the failed outcome's default
result is not truncated) instead of continuing to later pages;
`SetEnd` is still called afterwards, so every worker reaches `done`
within a bounded number of steps. -/
theorem listing_failure_amended (e : ListError) (rest script : List ListOutcome)
    (ret : ReadKey → Except RetrievalError Unit) (p : WPhase) :
    enumerate (ListOutcome.failure e :: rest)
      = ([], ["ListObjects error: " ++ e.exceptionName ++ " " ++ e.message], 1)
    ∧ (producerRun script).end_marker = true
    ∧ ∃ k, k ≤ (producerRun script).keylist.length + 2
        ∧ (workerIter ret k (p, producerRun script)).1 = WPhase.done :=
  ⟨rfl, rfl, worker_done_any_phase ret (producerRun script) rfl p⟩

/-- C8.  CLI exit behaviour: with fewer than three `argv` entries
(program name plus two positional arguments) `main` prints usage and
exits 1; with both arguments present it exits 0 after the producer
finishes and every worker can be joined (reaches `done`), for every
script of listing outcomes and every retrieval oracle — i.e.
regardless of how many listing or retrieval operations failed. -/
theorem cli_exit_behaviour (argv : List String) (script : List ListOutcome)
    (ret : ReadKey → Except RetrievalError Unit) :
    (argv.length < 3 → mainModel argv script = (1, none))
    ∧ (3 ≤ argv.length →
        (mainModel argv script).1 = 0
        ∧ (mainModel argv script).2 = some (producerRun script)
        ∧ ∀ p : WPhase, ∃ k,
            k ≤ (producerRun script).keylist.length + 2
            ∧ (workerIter ret k (p, producerRun script)).1 = WPhase.done) := by
  constructor
  · intro h
    simp [mainModel, h]
  · intro h
    have hn : ¬ argv.length < 3 := by omega
    refine ⟨by simp [mainModel, hn], by simp [mainModel, hn], ?_⟩
    intro p
    exact worker_done_any_phase ret (producerRun script) rfl p

/-- Witness for `cli_exit_behaviour`: one missing argument exits 1,
both arguments exit 0. -/
theorem cli_exit_behaviour_witness :
    (["readbucket"].length < 3
      ∧ mainModel ["readbucket"] [] = (1, none))
    ∧ (3 ≤ ["readbucket", "endpoint", "bucket"].length
      ∧ (mainModel ["readbucket", "endpoint", "bucket"] []).1 = 0) :=
  ⟨⟨by decide, (cli_exit_behaviour ["readbucket"] []
      (fun _ => Except.ok ())).1 (by decide)⟩,
    by decide, ((cli_exit_behaviour ["readbucket", "endpoint", "bucket"] []
      (fun _ => Except.ok ())).2 (by decide)).1⟩

/-- C9.  Range-header boundary: `ConstructByteRange lower upper` is
exactly `"bytes=" ++ lower ++ "-" ++ upper` in decimal; the enumerator
passes the exclusive bound `min size (offset + chunk)` as `upper`; and
for consecutive chunks of one object the number ending one chunk's
header is the number starting the next chunk's header — each header
names one byte past the half-open range it is meant to cover. -/
theorem range_header_boundary (s c : Nat) (hc : 0 < c) :
    (∀ lower upper : Nat, ConstructByteRange lower upper
        = "bytes=" ++ toString lower ++ "-" ++ toString upper)
    ∧ (∀ (key : String) (size : Nat), tasksOfObject key size
        = (partition size ReadChunkSize readChunkSize_pos).map
            (fun p => (key, ConstructByteRange p.1 p.2)))
    ∧ (∀ p ∈ partition s c hc, p.2 = min s (p.1 + c))
    ∧ List.Chain' (fun p q : Nat × Nat =>
        ConstructByteRange p.1 p.2 = "bytes=" ++ toString p.1 ++ "-" ++ toString q.1)
        (partition s c hc) := by
  refine ⟨fun l u => rfl, fun k sz => rfl, ?_, ?_⟩
  · intro p hp
    exact (partitionLoop_mem s c hc 0 p hp).2.2
  · refine List.Chain'.imp ?_ (partitionLoop_chain_aux s c hc s 0 (by omega))
    intro p q h
    show "bytes=" ++ toString p.1 ++ "-" ++ toString p.2
        = "bytes=" ++ toString p.1 ++ "-" ++ toString q.1
    rw [h]

/-- Witness for `range_header_boundary` at the two-chunk object size
`5000000000` with the source chunk size. -/
theorem range_header_boundary_witness :
    0 < ReadChunkSize
    ∧ ((∀ lower upper : Nat, ConstructByteRange lower upper
          = "bytes=" ++ toString lower ++ "-" ++ toString upper)
      ∧ (∀ (key : String) (size : Nat), tasksOfObject key size
          = (partition size ReadChunkSize readChunkSize_pos).map
              (fun p => (key, ConstructByteRange p.1 p.2)))
      ∧ (∀ p ∈ partition 5000000000 ReadChunkSize readChunkSize_pos,
          p.2 = min 5000000000 (p.1 + ReadChunkSize))
      ∧ List.Chain' (fun p q : Nat × Nat =>
          ConstructByteRange p.1 p.2 = "bytes=" ++ toString p.1 ++ "-" ++ toString q.1)
          (partition 5000000000 ReadChunkSize readChunkSize_pos)) :=
  ⟨readChunkSize_pos, range_header_boundary 5000000000 ReadChunkSize readChunkSize_pos⟩
